import Mathlib

/-!
Verification development for the `lalit-vscode-resume` single-page application
(`src/src/App.tsx`). The application state and the event handlers that mutate
it are embedded as pure Lean functions over an explicit `Workspace` record:
each React `setX` call becomes a field update, and each handler becomes a
state transformer. Strings are modelled by Lean `String` (JavaScript string
helpers `toLowerCase` / `includes` / `trim` are re-implemented over the
character list, with ASCII case mapping and the four common whitespace
characters, which covers every string occurring in the application). Pixel
and ratio arithmetic is modelled over `ℚ`.
-/

/-- The eight section identifiers (`SectionId` union type in the source). -/
inductive SectionId where
  | home
  | about
  | experience
  | projects
  | skills
  | education
  | training
  | contact
deriving DecidableEq

/-- `Section` record: id, display title and display path (`filePath`). -/
structure Section where
  id : SectionId
  title : String
  filePath : String
deriving DecidableEq

/-- `OpenTab` record: a tab open inside one group. -/
structure OpenTab where
  id : SectionId
  title : String
deriving DecidableEq

/-- The static section catalog (`SECTIONS` in the source), in registration
order. -/
def SECTIONS : List Section :=
  [ { id := .home, title := "Home", filePath := "home.md" },
    { id := .about, title := "About", filePath := "about.md" },
    { id := .experience, title := "Experience", filePath := "experience.ts" },
    { id := .projects, title := "Projects", filePath := "projects.json" },
    { id := .skills, title := "Skills", filePath := "skills.ts" },
    { id := .education, title := "Education", filePath := "education.md" },
    { id := .training, title := "Training & Certs", filePath := "training.md" },
    { id := .contact, title := "Contact", filePath := "contact.tsx" } ]

/-- The synthetic home tab `{ id: 'home', title: 'Home' }` used as the left
group's floor. -/
def homeTab : OpenTab := { id := .home, title := "Home" }

/-- The two tab groups (`'left' | 'right'` string literals in the source). -/
inductive TabGroup where
  | left
  | right
deriving DecidableEq

/-- The mutable application state: one field per `useState` hook that the
claims touch (`leftOpenTabs`, `leftActiveTabId`, `rightOpenTabs`,
`rightActiveTabId`, `query`, `dragIndex`, `dragOverIndex`, `splitRatio`). -/
structure Workspace where
  leftOpenTabs : List OpenTab
  leftActiveTabId : SectionId
  rightOpenTabs : List OpenTab
  rightActiveTabId : Option SectionId
  query : String
  dragIndex : Option Nat
  dragOverIndex : Option Nat
  splitRatio : ℚ
deriving DecidableEq

/-- The rational number `1/2`, written as a raw numerator/denominator pair so
that kernel evaluation of state equalities never has to normalise a
fraction. -/
def halfRatio : ℚ := ⟨1, 2, by decide, Nat.coprime_one_left 2⟩

/-- The initial state of the hooks: left `[home]` active `home`, right empty
and `null`, empty query, no drag, split ratio `0.5`. -/
def wsInit : Workspace :=
  { leftOpenTabs := [homeTab]
    leftActiveTabId := .home
    rightOpenTabs := []
    rightActiveTabId := none
    query := ""
    dragIndex := none
    dragOverIndex := none
    splitRatio := halfRatio }

/-- `openSection(section, target)`: append an `OpenTab` unless the id is
already present in the target group, then set that group's active id. -/
def openSection (sec : Section) (target : TabGroup) (w : Workspace) : Workspace :=
  match target with
  | .left =>
    let prev := w.leftOpenTabs
    let tabs := if prev.any (fun t => t.id = sec.id) then prev
      else prev ++ [{ id := sec.id, title := sec.title }]
    { w with leftOpenTabs := tabs, leftActiveTabId := sec.id }
  | .right =>
    let prev := w.rightOpenTabs
    let tabs := if prev.any (fun t => t.id = sec.id) then prev
      else prev ++ [{ id := sec.id, title := sec.title }]
    { w with rightOpenTabs := tabs, rightActiveTabId := some sec.id }

/-- The tab-click handler `onClick={() => setLeftActiveTabId(tab.id)}` (and
its right-group counterpart): the raw active-id setter. In the UI it is only
ever dispatched with the id of a tab rendered in that group's tab bar. -/
def setActiveTab (group : TabGroup) (tabId : SectionId) (w : Workspace) : Workspace :=
  match group with
  | .left => { w with leftActiveTabId := tabId }
  | .right => { w with rightActiveTabId := some tabId }

/-- Shared body of `closeTab`: given the group's previous list and active id,
produce the new list and new active id. Mirrors the source line by line:
`findIndex`, the `idx === -1` early return, `filter`, the
`next[idx - 1] || next[idx]` fallback (index `-1` is `undefined` in
JavaScript, hence the `idx = 0` guard), the `!fallback` early return, and the
trailing floor `next.length ? next : ...`. -/
def closeTabCore (isLeft : Bool) (prev : List OpenTab) (activeId : Option SectionId)
    (tabId : SectionId) : List OpenTab × Option SectionId :=
  match prev.findIdx? (fun t => t.id = tabId) with
  | none => (prev, activeId)
  | some idx =>
    let next := prev.filter (fun t => t.id ≠ tabId)
    if activeId = some tabId then
      match (if idx = 0 then none else next[idx - 1]?).orElse (fun _ => next[idx]?) with
      | some fb =>
        ((if next.isEmpty then (if isLeft then [homeTab] else []) else next), some fb.id)
      | none =>
        ((if isLeft then [homeTab] else []),
         if isLeft then some .home else (next[0]?).map (fun t => t.id))
    else
      ((if next.isEmpty then (if isLeft then [homeTab] else []) else next), activeId)

/-- `closeTab(tabId, group)` assembled over the workspace. For the left group
the new active id produced by `closeTabCore` is always `some`, matching the
source where `setLeftActiveTabId` only ever receives a `SectionId`. -/
def closeTab (tabId : SectionId) (group : TabGroup) (w : Workspace) : Workspace :=
  match group with
  | .left =>
    let r := closeTabCore true w.leftOpenTabs (some w.leftActiveTabId) tabId
    { w with leftOpenTabs := r.1, leftActiveTabId := r.2.getD w.leftActiveTabId }
  | .right =>
    let r := closeTabCore false w.rightOpenTabs w.rightActiveTabId tabId
    { w with rightOpenTabs := r.1, rightActiveTabId := r.2 }

/-- `closeOthers(tabId)`: collapse the left list to the tabs whose id equals
`tabId` and set the left active id, unconditionally. -/
def closeOthers (tabId : SectionId) (w : Workspace) : Workspace :=
  { w with leftOpenTabs := w.leftOpenTabs.filter (fun t => t.id = tabId)
           leftActiveTabId := tabId }

/-- `closeToRight(tabId)`: truncate the left list after `tabId` (no change to
the list when absent), and set the left active id, unconditionally. -/
def closeToRight (tabId : SectionId) (w : Workspace) : Workspace :=
  let tabs := match w.leftOpenTabs.findIdx? (fun t => t.id = tabId) with
    | none => w.leftOpenTabs
    | some idx => w.leftOpenTabs.take (idx + 1)
  { w with leftOpenTabs := tabs, leftActiveTabId := tabId }

/-- `closeAllTabs()`: reset both groups. -/
def closeAllTabs (w : Workspace) : Workspace :=
  { w with leftOpenTabs := [homeTab]
           leftActiveTabId := .home
           rightOpenTabs := []
           rightActiveTabId := none }

/-- `splitTab(tabId, direction, fromGroup)` — the `moveToGroup` operation.
Appends to the destination group unless already present, activates the tab
there; when moving across groups, filters the tab out of the source list and,
if it was the source's active tab, activates the first tab of the old source
list with a different id (falling back to `'home'` on the left and `null` on
the right). -/
def splitTab (tabId : SectionId) (direction : TabGroup) (fromGroup : TabGroup)
    (w : Workspace) : Workspace :=
  match SECTIONS.find? (fun s => s.id = tabId) with
  | none => w
  | some sec =>
    match direction with
    | .right =>
      let rtabs := if w.rightOpenTabs.any (fun t => t.id = tabId) then w.rightOpenTabs
        else w.rightOpenTabs ++ [{ id := tabId, title := sec.title }]
      let w1 := { w with rightOpenTabs := rtabs, rightActiveTabId := some tabId }
      if fromGroup = .left then
        let ltabs := w.leftOpenTabs.filter (fun t => t.id ≠ tabId)
        let la := if w.leftActiveTabId = tabId then
            ((w.leftOpenTabs.find? (fun t => t.id ≠ tabId)).map (fun t => t.id)).getD .home
          else w.leftActiveTabId
        { w1 with leftOpenTabs := ltabs, leftActiveTabId := la }
      else w1
    | .left =>
      let ltabs := if w.leftOpenTabs.any (fun t => t.id = tabId) then w.leftOpenTabs
        else w.leftOpenTabs ++ [{ id := tabId, title := sec.title }]
      let w1 := { w with leftOpenTabs := ltabs, leftActiveTabId := tabId }
      if fromGroup = .right then
        let rtabs := w.rightOpenTabs.filter (fun t => t.id ≠ tabId)
        let ra := if w.rightActiveTabId = some tabId then
            (w.rightOpenTabs.find? (fun t => t.id ≠ tabId)).map (fun t => t.id)
          else w.rightActiveTabId
        { w1 with rightOpenTabs := rtabs, rightActiveTabId := ra }
      else w1

/-- `handleTabDrop(index)`: the drop handler of the left-group drag-reorder.
`null` drag index: ignore. Same index: clear the drag state only. Otherwise
remove the dragged tab and re-insert it at `index - 1` when dragged
rightwards, else at `index` (the source's `splice` pair). The source only
ever runs it with an in-range `dragIndex` (set by `handleTabDragStart` from a
rendered tab); for an out-of-range `dragIndex` (where JavaScript `splice`
would insert an `undefined` hole) this model leaves the list unchanged. -/
def handleTabDrop (index : Nat) (w : Workspace) : Workspace :=
  match w.dragIndex with
  | none => w
  | some di =>
    if index = di then { w with dragIndex := none, dragOverIndex := none }
    else
      match w.leftOpenTabs[di]? with
      | none => { w with dragIndex := none, dragOverIndex := none }
      | some moved =>
        let next := w.leftOpenTabs.eraseIdx di
        let insertIndex := if di < index then index - 1 else index
        { w with leftOpenTabs := next.insertIdx insertIndex moved
                 dragIndex := none
                 dragOverIndex := none }

/-- `handleTabDragStart(index)`: record the dragged index. -/
def handleTabDragStart (index : Nat) (w : Workspace) : Workspace :=
  { w with dragIndex := some index, dragOverIndex := some index }

/-- Splitter-drag `onMove` handler: raw x relative to the container minus the
grab offset (`dragOffsetPx ?? 0`), clamped to `[100, width − 100]`, divided by
the container width, then clamped to `[0.2, 0.8]`. -/
def onMove (clientX rectLeft rectWidth : ℚ) (dragOffsetPx : Option ℚ) : ℚ :=
  let offset := dragOffsetPx.getD 0
  let rawX := clientX - rectLeft - offset
  let clampedX := min (max rawX 100) (rectWidth - 100)
  let ratio := clampedX / rectWidth
  min (max ratio 0.2) 0.8

/-- The claim's description of the splitter computation, written from the
spec's words: first clamp the pointer-derived x position so each pane is at
least 100 px wide, then divide by the container width, then clamp the result
to `[0.2, 0.8]`. -/
def specSplitRatio (pointerX containerLeft grabOffset containerWidth : ℚ) : ℚ :=
  let x := pointerX - containerLeft - grabOffset
  let paneClamped := min (max x 100) (containerWidth - 100)
  min (max (paneClamped / containerWidth) 0.2) 0.8

/-- ASCII lower-casing of one character (model of `String.toLowerCase` on the
ASCII strings occurring in the catalog). -/
def lowerChar (c : Char) : Char :=
  if 'A' ≤ c ∧ c ≤ 'Z' then Char.ofNat (c.toNat + 32) else c

/-- `toLowerCase` over a whole string. -/
def toLower (s : String) : String := String.mk (s.data.map lowerChar)

/-- Is `sub` an initial segment of `hay`? -/
def leadsChars : List Char → List Char → Bool
  | [], _ => true
  | _ :: _, [] => false
  | a :: as, b :: bs => a == b && leadsChars as bs

/-- Does `hay` contain `sub` as a contiguous segment? -/
def includesChars (sub : List Char) : List Char → Bool
  | [] => sub.isEmpty
  | c :: rest => leadsChars sub (c :: rest) || includesChars sub rest

/-- JavaScript `hay.includes(sub)`. -/
def includesStr (hay sub : String) : Bool := includesChars sub.data hay.data

/-- The whitespace characters stripped by `trim` (space, tab, newline,
carriage return — the ones that can occur in a typed query). -/
def isWsChar (c : Char) : Bool := c == ' ' || c == '\t' || c == '\n' || c == '\r'

/-- JavaScript `s.trim()`. -/
def jsTrim (s : String) : String :=
  String.mk (((s.data.dropWhile isWsChar).reverse.dropWhile isWsChar).reverse)

/-- `filteredSections`: full catalog when the trimmed query is empty (JS
`!query.trim()`), otherwise the sections whose lower-cased title or path
includes the lower-cased query. -/
def filteredSections (query : String) : List Section :=
  if jsTrim query = "" then SECTIONS
  else
    let q := toLower query
    SECTIONS.filter (fun s => includesStr (toLower s.title) q || includesStr (toLower s.filePath) q)

/-- The search input's Enter handler (`commitFirst`): open the first filtered
section into the left group and clear the query; do nothing when there is no
result. -/
def commitFirst (query : String) (w : Workspace) : Workspace :=
  match (filteredSections query).head? with
  | some first => { openSection first .left w with query := "" }
  | none => w

/-- The claim's predicate, written from the spec's words: the section's title
or display path contains the query as a case-insensitive substring. -/
def matchesQuery (query : String) (s : Section) : Bool :=
  includesStr (toLower s.title) (toLower query) || includesStr (toLower s.filePath) (toLower query)

/-- JavaScript truthiness of an optional string (`undefined`, `null` and the
empty string are falsy). -/
def jsTruthy (o : Option String) : Bool :=
  match o with
  | some s => s ≠ ""
  | none => false

/-- A `basics.profiles` entry. `url?: string | null` is modelled as a single
`Option`: the source only ever consumes it through `??`, which treats
`undefined` and `null` identically. -/
structure ProfileItem where
  network : String
  username : Option String
  url : Option String
deriving DecidableEq

/-- `Resume.basics` (`name`/`label` required by the declared type, the rest
optional). -/
structure Basics where
  name : String
  label : String
  summary : Option String
  profiles : Option (List ProfileItem)
deriving DecidableEq

/-- A `Resume.work` entry. -/
structure WorkItem where
  name : String
  position : String
  startDate : String
  endDate : Option String
  highlights : List String
deriving DecidableEq

/-- A `Resume.projects` entry (`url` is declared but never rendered). -/
structure ProjectItem where
  name : String
  year : Option Nat
  summary : Option String
  technologies : Option (List String)
  url : Option String
deriving DecidableEq

/-- A `Resume.skills` entry. -/
structure SkillItem where
  name : String
  keywords : List String
deriving DecidableEq

/-- A `Resume.education` entry. -/
structure EducationItem where
  institution : String
  studyType : Option String
  area : Option String
  startDate : Option String
  endDate : Option String
  score : Option String
deriving DecidableEq

/-- A `Resume.certificates` entry. -/
structure CertItem where
  name : String
  issuer : Option String
  date : Option String
deriving DecidableEq

/-- The `Resume` document (the unused `meta`/`interests` catch-alls are
dropped; nothing in the application reads them). -/
structure Resume where
  basics : Basics
  skills : List SkillItem
  work : List WorkItem
  projects : List ProjectItem
  education : List EducationItem
  certificates : List CertItem
deriving DecidableEq

/-- `fmtDate`: JavaScript `d ? d : 'Present'` (empty, `null` and `undefined`
all map to `'Present'`). -/
def fmtDate (d : Option String) : String :=
  match d with
  | some s => if s = "" then "Present" else s
  | none => "Present"

/-- `linesFromResume` inside `getSectionLines`: the resume-backed lines for a
section. The source's `default: return null` branch is unreachable because
the eight-constructor id type is matched exhaustively. -/
def linesFromResume (r : Resume) (sec : SectionId) : List String :=
  match sec with
  | .home =>
    let name := r.basics.name
    let label := r.basics.label
    let summary := (r.basics.summary).getD ""
    (["# " ++ name, label, "", summary]).filter (fun s => s ≠ "")
  | .about =>
    let summary := (r.basics.summary).getD ""
    (["# About", "", summary]).filter (fun s => s ≠ "")
  | .experience =>
    ["# Work Experience", ""] ++
      (r.work.map (fun w =>
        (w.position ++ " — " ++ w.name ++ " (" ++ w.startDate ++ " – " ++ fmtDate w.endDate ++ ")")
          :: w.highlights.map (fun h => "• " ++ h) ++ [""])).flatten
  | .projects =>
    ["# Projects", ""] ++
      r.projects.map (fun p =>
        let tech := match p.technologies with
          | some ts => if ts.length ≠ 0 then " — " ++ String.intercalate ", " ts else ""
          | none => ""
        let yr := match p.year with
          | some y => if y ≠ 0 then " (" ++ toString y ++ ")" else ""
          | none => ""
        jsTrim (p.name ++ yr ++ " — " ++ (p.summary).getD "" ++ tech))
  | .skills =>
    ["# Skills", ""] ++
      r.skills.map (fun s => s.name ++ ": " ++ String.intercalate ", " s.keywords)
  | .education =>
    ["# Education", ""] ++
      r.education.map (fun e =>
        let meta :=
          (if jsTruthy e.startDate || jsTruthy e.endDate then
            [jsTrim ((e.startDate).getD "" ++ " – " ++ (e.endDate).getD "")] else []) ++
          (if jsTruthy e.score then [(e.score).getD ""] else [])
        let metaStr := if meta.length ≠ 0 then " (" ++ String.intercalate " — " meta ++ ")" else ""
        let study := match e.studyType with
          | some st => if st ≠ "" then st ++ " | " else ""
          | none => ""
        jsTrim (study ++ (e.area).getD "" ++ " — " ++ e.institution ++ metaStr))
  | .training =>
    ["# Training & Certifications", ""] ++
      r.certificates.map (fun c =>
        let issuer := match c.issuer with
          | some s => if s ≠ "" then " — " ++ s else ""
          | none => ""
        let date := match c.date with
          | some s => if s ≠ "" then " (" ++ s ++ ")" else ""
          | none => ""
        c.name ++ issuer ++ date)
  | .contact =>
    ["# Contact", ""] ++
      ((r.basics.profiles).getD []).map (fun p =>
        let value := match p.url with
          | some u => u
          | none => (p.username).getD ""
        p.network ++ ": " ++ value)

/-- The static fallback copy of `getSectionLines` (used when the resume
record is unavailable). String literals are copied verbatim from the source. -/
def staticSectionLines (sec : SectionId) : List String :=
  match sec with
  | .home =>
    [ "# Lalit Sharma",
      "Software Engineer",
      "",
      "Detail‑oriented, organized and meticulous. Works at fast pace to meet tight deadlines.",
      "Enthusiastic team player ready to contribute to company success by achieving targets." ]
  | .about =>
    [ "# About",
      "",
      "Full‑stack engineer focused on React, TypeScript, Node.js and modern tooling.",
      "Experience leading migration of legacy UI to modern React with performance gains,",
      "building Micro‑Frontend Architecture, and enforcing authentication/authorization and",
      "accessibility (WCAG). Strong interest in DX, testing, and scalable UI systems." ]
  | .experience =>
    [ "# Work Experience",
      "",
      "Software Engineer — Magic EdTech (07/2022 – Present)",
      "• Led migration of old UI to modern React app with ~75% improvement in performance.",
      "• Created and worked on Micro‑Frontend Architecture.",
      "• Built complex React applications using ReactJS, TypeScript and StencilJS.",
      "• Integrated authentication with live validation and encryption; used OAuth 2.0 for SocialSignOn.",
      "• Built reusable web components in StencilJS; maintained a Storybook library.",
      "• Implemented TailwindCSS styling and WCAG‑compliant accessible UI.",
      "• Implemented responsive design and UI test cases across browsers.",
      "• Collaborated with Backend and UI/UX teams to deliver features.",
      "",
      "Project Engineer — Wipro Limited (03/2021 – 06/2022)",
      "• Delivered user‑facing features using ReactJS and reusable components.",
      "• Built reusable web methods/solutions used across business domains.",
      "• Designed responsive pages with HTML5, CSS3, JavaScript and ReactJS per W3C standards.",
      "• Managed firewall over internal network; provisioned/denied access to servers/apps.",
      "• Completed client requests under SLA." ]
  | .projects =>
    [ "# Projects",
      "",
      "Comfy Sloth (2022) — E‑commerce store replica; product filters, categories, deep React integration.",
      "Backroads (2021) — Travel‑based responsive site using HTML, CSS and Vanilla JS.",
      "Static Website Hosting & Cross Account Access (2019) — Hosted on AWS with cross‑account access.",
      "Floppy Dude (2018) — Game built from scratch in Java (Flappy‑bird inspired).",
      "Box Moving Mechanism (2017) — Final year project in Mechanical Engineering." ]
  | .skills =>
    [ "# Skills",
      "",
      "Web: HTML, CSS, JavaScript, TypeScript, TailwindCSS",
      "Frontend: React JS, StencilJS, Redux, Hooks, Routers",
      "Backend: Node.js",
      "Core: Data Structures, OOPs",
      "Languages: Java, C/C++",
      "Cloud: AWS" ]
  | .education =>
    [ "# Education",
      "",
      "B.Tech | Computer Science — Ajay Kumar Garg Engineering College (08/2017 – 08/2020) — 69%",
      "Diploma | Mechanical Engineering — Aryabhat Institute of Technology (08/2014 – 05/2017) — 64%",
      "Secondary | Class X — Army Public School Dhaula Kuan (04/2013 – 03/2014) — CGPA 7.8" ]
  | .training =>
    [ "# Training & Certifications",
      "",
      "Full Stack Web Development — MERN Stack (07/2023)",
      "JavaScript, HTML & CSS — Udemy (2020)",
      "Amazon Web Services — Udemy (2019)",
      "Core Java — CodeKamp (2018)",
      "C and C++ Programming — Aptech (2017)" ]
  | .contact =>
    [ "# Contact",
      "",
      "Email:   lalitdev9013@gmail.com",
      "Phone:   +91 8130417929",
      "LinkedIn: linkedin.com/in/lalitbing",
      "GitHub:  github.com/lalitbing" ]

/-- `getSectionLines(id)`: resume-backed lines when the record is loaded
(arrays are truthy in JavaScript, so `if (resumeLines) return resumeLines`
fires exactly when the record is non-null), else the static fallback copy. -/
def getSectionLines (sec : SectionId) (resume : Option Resume) : List String :=
  match resume with
  | some r => linesFromResume r sec
  | none => staticSectionLines sec

/-- The loading placeholder rendered for `home` while the fetch is in
flight. -/
def loadingLines : List String := ["# Loading…", "", "Fetching resume data…"]

/-- `renderEditorContent(id)`: the loading placeholder for `home` while
`resumeLoading`, else `getSectionLines`. -/
def renderEditorContent (sec : SectionId) (resume : Option Resume)
    (resumeLoading : Bool) : List String :=
  if resumeLoading ∧ sec = SectionId.home then loadingLines
  else getSectionLines sec resume

/-- Outcome of one `fetch` + `res.json()` attempt: a parsed document, a
non-success response (`!res.ok`), or a thrown network / parse error. -/
inductive FetchOutcome where
  | ok (data : Resume)
  | httpError
  | networkError
deriving DecidableEq

/-- The startup `load()` effect, with the two awaited fetches replaced by
their outcomes: try the primary; on any failure try the fallback; on failure
of both set the record to `null`. Returns the settled
`(resume, resumeLoading)` pair — the `finally` block always clears
`resumeLoading`. -/
def load (primary fallback : FetchOutcome) : Option Resume × Bool :=
  match primary with
  | .ok d => (some d, false)
  | _ =>
    match fallback with
    | .ok d2 => (some d2, false)
    | _ => (none, false)

/-! ## Helper definitions and lemmas -/

/-- The ids of a tab list. -/
def tabIds (l : List OpenTab) : List SectionId := l.map (fun t => t.id)

/-- The tab list of a group. -/
def groupTabs (g : TabGroup) (w : Workspace) : List OpenTab :=
  match g with
  | .left => w.leftOpenTabs
  | .right => w.rightOpenTabs

/-- The active id of a group, as an option (always `some` on the left). -/
def groupActive (g : TabGroup) (w : Workspace) : Option SectionId :=
  match g with
  | .left => some w.leftActiveTabId
  | .right => w.rightActiveTabId

/-- The spec's active-tab invariant: each group's active id is `none` or the
id of a tab present in that group's list. -/
def InvActive (w : Workspace) : Prop :=
  w.leftActiveTabId ∈ tabIds w.leftOpenTabs ∧
    (w.rightActiveTabId = none ∨
      ∃ a ∈ tabIds w.rightOpenTabs, w.rightActiveTabId = some a)

/-- The catalog entry for a given id (the `SECTIONS.find` in `splitTab`
always succeeds because every id is registered). -/
def sectionOf (tabId : SectionId) : Section :=
  match tabId with
  | .home => { id := .home, title := "Home", filePath := "home.md" }
  | .about => { id := .about, title := "About", filePath := "about.md" }
  | .experience => { id := .experience, title := "Experience", filePath := "experience.ts" }
  | .projects => { id := .projects, title := "Projects", filePath := "projects.json" }
  | .skills => { id := .skills, title := "Skills", filePath := "skills.ts" }
  | .education => { id := .education, title := "Education", filePath := "education.md" }
  | .training => { id := .training, title := "Training & Certs", filePath := "training.md" }
  | .contact => { id := .contact, title := "Contact", filePath := "contact.tsx" }

/-- Decidability of the active-tab invariant, so that concrete states can be
checked by evaluation. -/
instance (w : Workspace) : Decidable (InvActive w) := by
  unfold InvActive
  infer_instance

/-- An `open`/`close` operation on the left group, for stating properties of
arbitrary operation sequences. -/
inductive LeftOp where
  | openTab (sec : Section)
  | close (tabId : SectionId)

/-- Apply one left-group operation. -/
def applyLeftOp (op : LeftOp) (w : Workspace) : Workspace :=
  match op with
  | .openTab sec => openSection sec .left w
  | .close tabId => closeTab tabId .left w

/-- Run a sequence of left-group operations from a state. -/
def runLeftOps (ops : List LeftOp) (w : Workspace) : Workspace :=
  match ops with
  | [] => w
  | op :: rest => runLeftOps rest (applyLeftOp op w)

/-- The `About` tab. -/
def aboutTab : OpenTab := { id := .about, title := "About" }

/-- The `Skills` tab. -/
def skillsTab : OpenTab := { id := .skills, title := "Skills" }

/-- The spec's acceptance-scenario state: left `[home, about, skills]` with
`skills` active. -/
def wDemo : Workspace :=
  { wsInit with leftOpenTabs := [homeTab, aboutTab, skillsTab], leftActiveTabId := .skills }

theorem mem_tabIds_iff {a : SectionId} {l : List OpenTab} :
    a ∈ tabIds l ↔ ∃ t ∈ l, t.id = a := by
  simp [tabIds]

theorem mem_tabIds_filter_of {a : SectionId} {tabId : SectionId} {l : List OpenTab}
    (ha : a ∈ tabIds l) (hne : a ≠ tabId) :
    a ∈ tabIds (l.filter (fun t => t.id ≠ tabId)) := by
  obtain ⟨t, ht, rfl⟩ := mem_tabIds_iff.mp ha
  exact mem_tabIds_iff.mpr ⟨t, List.mem_filter.mpr ⟨ht, by simpa using hne⟩, rfl⟩

theorem findIdx?_of_not_mem {tabId : SectionId} {l : List OpenTab}
    (h : tabId ∉ tabIds l) :
    l.findIdx? (fun t => t.id = tabId) = none := by
  rw [List.findIdx?_eq_none_iff]
  intro t ht
  simp only [decide_eq_false_iff_not]
  intro hEq
  exact h (mem_tabIds_iff.mpr ⟨t, ht, hEq⟩)

theorem closeTabCore_absent {isLeft : Bool} {prev : List OpenTab}
    {act : Option SectionId} {tabId : SectionId} (h : tabId ∉ tabIds prev) :
    closeTabCore isLeft prev act tabId = (prev, act) := by
  simp [closeTabCore, findIdx?_of_not_mem h]

theorem findIdx?_decomp {l1 l2 : List OpenTab} {tb : OpenTab} {tabId : SectionId}
    (htb : tb.id = tabId) (hl1 : ∀ u ∈ l1, u.id ≠ tabId) :
    (l1 ++ tb :: l2).findIdx? (fun t => t.id = tabId) = some l1.length := by
  rw [List.findIdx?_eq_some_iff_getElem]
  refine ⟨by simp, ?_, ?_⟩
  · have hmidlen : l1.length < (l1 ++ tb :: l2).length := by simp
    have hmid : (l1 ++ tb :: l2)[l1.length] = tb := by
      rw [List.getElem_append_right (le_refl _)]
      simp
    simp [hmid, htb]
  · intro j hj
    have hjlen : j < (l1 ++ tb :: l2).length := by
      simp
      omega
    have hgl : (l1 ++ tb :: l2)[j] = l1[j] :=
      List.getElem_append_left hj
    simp only [hgl, decide_eq_true_eq]
    exact hl1 _ (List.getElem_mem hj)

theorem filter_decomp {l1 l2 : List OpenTab} {tb : OpenTab} {tabId : SectionId}
    (htb : tb.id = tabId) (hl1 : ∀ u ∈ l1, u.id ≠ tabId)
    (hl2 : ∀ u ∈ l2, u.id ≠ tabId) :
    (l1 ++ tb :: l2).filter (fun t => t.id ≠ tabId) = l1 ++ l2 := by
  have h1 : l1.filter (fun t => !decide (t.id = tabId)) = l1 :=
    List.filter_eq_self.mpr (fun a ha => by simp [hl1 a ha])
  have h2 : l2.filter (fun t => !decide (t.id = tabId)) = l2 :=
    List.filter_eq_self.mpr (fun a ha => by simp [hl2 a ha])
  simp [List.filter_append, List.filter_cons, htb, h1, h2]

theorem findIdx?_le_length_filter {prev : List OpenTab} {tabId : SectionId} {idx : Nat}
    (h : prev.findIdx? (fun t => t.id = tabId) = some idx) :
    idx ≤ (prev.filter (fun t => t.id ≠ tabId)).length := by
  obtain ⟨hlt, hp, hmin⟩ := List.findIdx?_eq_some_iff_getElem.mp h
  have htake : (prev.take idx).filter (fun t => decide (t.id ≠ tabId)) = prev.take idx := by
    rw [List.filter_eq_self]
    intro a ha
    obtain ⟨n, hn, hEq⟩ := List.mem_iff_getElem.mp ha
    have hnidx : n < idx := by
      have := List.length_take idx prev
      omega
    have hnb : n < prev.length := by omega
    have : a = prev[n] := by
      rw [← hEq, List.getElem_take]
    subst this
    have := hmin n hnidx
    simp_all
  have hsplit : prev.filter (fun t => decide (t.id ≠ tabId)) =
      prev.take idx ++ (prev.drop idx).filter (fun t => decide (t.id ≠ tabId)) := by
    conv_lhs => rw [← List.take_append_drop idx prev]
    rw [List.filter_append, htake]
  calc idx = (prev.take idx).length := by rw [List.length_take]; omega
    _ ≤ _ := by rw [hsplit]; simp

theorem isEmpty_false_of_mem {l : List OpenTab} {t : OpenTab} (h : t ∈ l) :
    l.isEmpty = false := by
  cases l with
  | nil => cases h
  | cons a as => rfl

theorem orElse_eq_some_cases {α : Type} {o : Option α} {f : Unit → Option α} {b : α}
    (h : o.orElse f = some b) : o = some b ∨ (o = none ∧ f () = some b) := by
  cases o with
  | none => exact Or.inr ⟨rfl, h⟩
  | some a => exact Or.inl (by simpa [Option.orElse] using h)

theorem orElse_eq_none_cases {α : Type} {o : Option α} {f : Unit → Option α}
    (h : o.orElse f = none) : o = none ∧ f () = none := by
  cases o with
  | none => exact ⟨rfl, h⟩
  | some a => simp [Option.orElse] at h

theorem closeTabCore_left_neighbor {isLeft : Bool} {l1 l2 : List OpenTab}
    {tb u : OpenTab} {tabId : SectionId}
    (htb : tb.id = tabId) (hl1 : ∀ v ∈ l1, v.id ≠ tabId) (hl2 : ∀ v ∈ l2, v.id ≠ tabId)
    (hne : l1 ≠ []) (hu : (l1 ++ l2)[l1.length - 1]? = some u) :
    closeTabCore isLeft (l1 ++ tb :: l2) (some tabId) tabId = (l1 ++ l2, some u.id) := by
  obtain ⟨a, as, rfl⟩ := List.exists_cons_of_ne_nil hne
  have hidx := @findIdx?_decomp (a :: as) l2 tb tabId htb hl1
  have hfil := @filter_decomp (a :: as) l2 tb tabId htb hl1 hl2
  simp only [closeTabCore, hidx, hfil]
  simp only [List.cons_append, List.length_cons, Nat.add_sub_cancel] at hu
  simp [hu, Option.orElse]

theorem closeTabCore_same_index {isLeft : Bool} {l2 : List OpenTab}
    {tb u : OpenTab} {tabId : SectionId}
    (htb : tb.id = tabId) (hl2 : ∀ v ∈ l2, v.id ≠ tabId)
    (hu : l2[0]? = some u) :
    closeTabCore isLeft (tb :: l2) (some tabId) tabId = (l2, some u.id) := by
  have hidx := @findIdx?_decomp [] l2 tb tabId htb (by simp)
  have hfil := @filter_decomp [] l2 tb tabId htb (by simp) hl2
  simp only [List.nil_append] at hidx hfil
  obtain ⟨v, l2t, rfl⟩ : ∃ v l2t, l2 = v :: l2t := by
    cases l2 with
    | nil => simp at hu
    | cons v t => exact ⟨v, t, rfl⟩
  simp only [closeTabCore, hidx, hfil]
  simp [Option.orElse] at hu ⊢
  simp [hu]

theorem closeTabCore_emptied {isLeft : Bool} {tb : OpenTab} {tabId : SectionId}
    (htb : tb.id = tabId) :
    closeTabCore isLeft [tb] (some tabId) tabId =
      ((if isLeft then [homeTab] else []), if isLeft then some .home else none) := by
  have hidx := @findIdx?_decomp [] [] tb tabId htb (by simp)
  have hfil := @filter_decomp [] [] tb tabId htb (by simp) (by simp)
  simp only [List.nil_append] at hidx hfil
  simp only [closeTabCore, hidx, hfil]
  simp [Option.orElse]

theorem closeTabCore_inv {isLeft : Bool} {prev : List OpenTab}
    {act : Option SectionId} {tabId : SectionId}
    (hact : ∀ a, act = some a → a ∈ tabIds prev) :
    (∀ a, (closeTabCore isLeft prev act tabId).2 = some a →
        a ∈ tabIds (closeTabCore isLeft prev act tabId).1) ∧
    (isLeft = true → prev ≠ [] → (closeTabCore isLeft prev act tabId).1 ≠ []) := by
  unfold closeTabCore
  cases hfind : prev.findIdx? (fun t => decide (t.id = tabId)) with
  | none =>
    refine ⟨hact, fun _ h => h⟩
  | some idx =>
    simp only []
    by_cases hae : act = some tabId
    · rw [if_pos hae]
      cases hfb : (if idx = 0 then none else
          (prev.filter (fun t => t.id ≠ tabId))[idx - 1]?).orElse
          (fun _ => (prev.filter (fun t => t.id ≠ tabId))[idx]?) with
      | some fb =>
        have hfbmem : fb ∈ prev.filter (fun t => t.id ≠ tabId) := by
          rcases orElse_eq_some_cases hfb with h1 | ⟨_, h2⟩
          · by_cases h0 : idx = 0
            · rw [if_pos h0] at h1
              cases h1
            · rw [if_neg h0] at h1
              obtain ⟨hlt, rfl⟩ := List.getElem?_eq_some_iff.mp h1
              exact List.getElem_mem hlt
          · obtain ⟨hlt, rfl⟩ := List.getElem?_eq_some_iff.mp h2
            exact List.getElem_mem hlt
        have hemp : (prev.filter (fun t => t.id ≠ tabId)).isEmpty = false :=
          isEmpty_false_of_mem hfbmem
        simp only [hemp, Bool.false_eq_true, if_false]
        constructor
        · intro a ha
          cases ha
          exact mem_tabIds_iff.mpr ⟨fb, hfbmem, rfl⟩
        · intro _ _
          intro hcontra
          rw [hcontra] at hfbmem
          cases hfbmem
      | none =>
        have hnil : prev.filter (fun t => t.id ≠ tabId) = [] := by
          obtain ⟨hfirst, hsecond⟩ := orElse_eq_none_cases hfb
          have hle := findIdx?_le_length_filter hfind
          have hlen2 : (prev.filter (fun t => t.id ≠ tabId)).length ≤ idx :=
            List.getElem?_eq_none_iff.mp hsecond
          by_cases h0 : idx = 0
          · subst h0
            exact List.length_eq_zero.mp (Nat.le_antisymm hlen2 (Nat.zero_le _))
          · rw [if_neg h0] at hfirst
            have hlen1 : (prev.filter (fun t => t.id ≠ tabId)).length ≤ idx - 1 :=
              List.getElem?_eq_none_iff.mp hfirst
            omega
        rw [hnil]
        cases isLeft with
        | true =>
          refine ⟨?_, fun _ _ => by simp⟩
          intro a ha
          simp only [if_true] at ha ⊢
          cases ha
          simp [tabIds, homeTab]
        | false =>
          refine ⟨?_, fun h _ => by cases h⟩
          intro a ha
          simp at ha
    · rw [if_neg hae]
      constructor
      · intro a ha
        simp only at ha
        subst ha
        have hmem : a ∈ tabIds prev := hact a rfl
        have hanot : a ≠ tabId := fun h => hae (by rw [h])
        have hmemf := mem_tabIds_filter_of hmem hanot
        obtain ⟨t, ht, rfl⟩ := mem_tabIds_iff.mp hmemf
        have hemp := isEmpty_false_of_mem ht
        simp only [hemp, Bool.false_eq_true, if_false]
        exact mem_tabIds_iff.mpr ⟨t, ht, rfl⟩
      · intro hleft _
        cases hft : (prev.filter (fun t => t.id ≠ tabId)).isEmpty with
        | true => simp [hft, hleft]
        | false =>
          simp only [hft, Bool.false_eq_true, if_false]
          intro hcontra
          rw [hcontra] at hft
          simp at hft

theorem closeTabCore_left_isSome {prev : List OpenTab} {act : Option SectionId}
    {tabId : SectionId} (h : ∃ x, act = some x) :
    ∃ b, (closeTabCore true prev act tabId).2 = some b := by
  unfold closeTabCore
  cases hfind : prev.findIdx? (fun t => decide (t.id = tabId)) with
  | none => simpa using h
  | some idx =>
    simp only []
    by_cases hae : act = some tabId
    · rw [if_pos hae]
      cases hfb : (if idx = 0 then none else
          (prev.filter (fun t => t.id ≠ tabId))[idx - 1]?).orElse
          (fun _ => (prev.filter (fun t => t.id ≠ tabId))[idx]?) with
      | none =>
        simp only [hfb]
        exact ⟨.home, by simp⟩
      | some fb =>
        simp only [hfb]
        exact ⟨fb.id, by simp⟩
    · rw [if_neg hae]
      simpa using h

theorem find?_eq_head_filter {α : Type} (p : α → Bool) (l : List α) :
    l.find? p = (l.filter p).head? := by
  induction l with
  | nil => rfl
  | cons a t ih =>
    cases hp : p a with
    | true =>
      rw [List.find?_cons_of_pos _ hp, List.filter_cons_of_pos hp]
      rfl
    | false =>
      have hnp : ¬ p a = true := by simp [hp]
      rw [List.find?_cons_of_neg _ hnp, List.filter_cons_of_neg hnp, ih]

theorem inv_closeTab (tabId : SectionId) (g : TabGroup) (w : Workspace)
    (hw : InvActive w) : InvActive (closeTab tabId g w) := by
  obtain ⟨hl, hr⟩ := hw
  cases g with
  | left =>
    unfold closeTab InvActive
    simp only []
    refine ⟨?_, ?_⟩
    · obtain ⟨b, hb⟩ := @closeTabCore_left_isSome w.leftOpenTabs
        (some w.leftActiveTabId) tabId ⟨w.leftActiveTabId, rfl⟩
      have hmem := (@closeTabCore_inv true w.leftOpenTabs
        (some w.leftActiveTabId) tabId
        (fun a ha => by injection ha with ha; rw [← ha]; exact hl)).1 b hb
      rw [hb]
      simpa using hmem
    · exact hr
  | right =>
    unfold closeTab InvActive
    simp only []
    refine ⟨hl, ?_⟩
    have hact : ∀ a, w.rightActiveTabId = some a → a ∈ tabIds w.rightOpenTabs := by
      intro a ha
      rcases hr with h0 | ⟨b, hb, heq⟩
      · rw [h0] at ha
        cases ha
      · rw [heq] at ha
        injection ha with ha
        rw [← ha]
        exact hb
    have hc := (@closeTabCore_inv false w.rightOpenTabs
      w.rightActiveTabId tabId hact).1
    cases hr2 : (closeTabCore false w.rightOpenTabs w.rightActiveTabId tabId).2 with
    | none => exact Or.inl rfl
    | some a => exact Or.inr ⟨a, hc a hr2, rfl⟩

theorem inv_openSection (sec : Section) (g : TabGroup) (w : Workspace)
    (hw : InvActive w) : InvActive (openSection sec g w) := by
  obtain ⟨hl, hr⟩ := hw
  cases g with
  | left =>
    unfold openSection InvActive
    simp only []
    refine ⟨?_, hr⟩
    by_cases hany : w.leftOpenTabs.any (fun t => t.id = sec.id)
    · rw [if_pos hany]
      obtain ⟨t, ht, hid⟩ := List.any_eq_true.mp hany
      exact mem_tabIds_iff.mpr ⟨t, ht, by simpa using hid⟩
    · rw [if_neg hany]
      exact mem_tabIds_iff.mpr ⟨{ id := sec.id, title := sec.title }, by simp, rfl⟩
  | right =>
    unfold openSection InvActive
    simp only []
    refine ⟨hl, Or.inr ⟨sec.id, ?_, rfl⟩⟩
    by_cases hany : w.rightOpenTabs.any (fun t => t.id = sec.id)
    · rw [if_pos hany]
      obtain ⟨t, ht, hid⟩ := List.any_eq_true.mp hany
      exact mem_tabIds_iff.mpr ⟨t, ht, by simpa using hid⟩
    · rw [if_neg hany]
      exact mem_tabIds_iff.mpr ⟨{ id := sec.id, title := sec.title }, by simp, rfl⟩

theorem inv_setActiveTab (g : TabGroup) (tabId : SectionId) (w : Workspace)
    (hw : InvActive w) (hmem : tabId ∈ tabIds (groupTabs g w)) :
    InvActive (setActiveTab g tabId w) := by
  obtain ⟨hl, hr⟩ := hw
  cases g with
  | left => exact ⟨hmem, hr⟩
  | right => exact ⟨hl, Or.inr ⟨tabId, hmem, rfl⟩⟩

theorem inv_closeOthers (tabId : SectionId) (w : Workspace)
    (hw : InvActive w) (hmem : tabId ∈ tabIds w.leftOpenTabs) :
    InvActive (closeOthers tabId w) := by
  obtain ⟨hl, hr⟩ := hw
  unfold closeOthers InvActive
  simp only []
  refine ⟨?_, hr⟩
  obtain ⟨t, ht, hid⟩ := mem_tabIds_iff.mp hmem
  exact mem_tabIds_iff.mpr ⟨t, List.mem_filter.mpr ⟨ht, by simpa using hid⟩, hid⟩

theorem inv_closeToRight (tabId : SectionId) (w : Workspace)
    (hw : InvActive w) (hmem : tabId ∈ tabIds w.leftOpenTabs) :
    InvActive (closeToRight tabId w) := by
  obtain ⟨hl, hr⟩ := hw
  unfold closeToRight InvActive
  simp only []
  refine ⟨?_, hr⟩
  obtain ⟨t, ht, hid⟩ := mem_tabIds_iff.mp hmem
  have hfind : (w.leftOpenTabs.findIdx? (fun t => t.id = tabId)).isSome := by
    rw [List.findIdx?_isSome]
    exact List.any_eq_true.mpr ⟨t, ht, by simpa using hid⟩
  cases hf : w.leftOpenTabs.findIdx? (fun t => decide (t.id = tabId)) with
  | none => rw [hf] at hfind; cases hfind
  | some idx =>
    simp only [hf]
    obtain ⟨hlt, hp, hmin⟩ := List.findIdx?_eq_some_iff_getElem.mp hf
    have hmemtake : w.leftOpenTabs[idx] ∈ w.leftOpenTabs.take (idx + 1) := by
      have hlen : idx < (w.leftOpenTabs.take (idx + 1)).length := by
        rw [List.length_take]
        omega
      have : (w.leftOpenTabs.take (idx + 1))[idx] = w.leftOpenTabs[idx] :=
        List.getElem_take _
      rw [← this]
      exact List.getElem_mem hlen
    exact mem_tabIds_iff.mpr ⟨_, hmemtake, by simpa using hp⟩

theorem inv_closeAllTabs (w : Workspace) : InvActive (closeAllTabs w) := by
  unfold closeAllTabs InvActive
  simp [tabIds, homeTab]

theorem find?_SECTIONS (tabId : SectionId) :
    SECTIONS.find? (fun s => s.id = tabId) = some (sectionOf tabId) := by
  cases tabId <;> rfl

theorem sectionOf_id (tabId : SectionId) : (sectionOf tabId).id = tabId := by
  cases tabId <;> rfl

theorem list_reinsert_perm {α : Type} (l : List α) (di index : Nat)
    (h1 : di < l.length) (h2 : index < l.length) :
    ((l.eraseIdx di).insertIdx (if di < index then index - 1 else index) l[di]).Perm l := by
  have hins : (if di < index then index - 1 else index) ≤ (l.eraseIdx di).length := by
    rw [List.length_eraseIdx_of_lt h1]
    by_cases hc : di < index
    · rw [if_pos hc]
      omega
    · rw [if_neg hc]
      omega
  have hperm1 : ((l.eraseIdx di).insertIdx (if di < index then index - 1 else index) l[di]).Perm
      (l[di] :: l.eraseIdx di) := List.perm_insertIdx _ _ hins
  have hdecomp : l = l.take di ++ l[di] :: l.drop (di + 1) := by
    conv_lhs => rw [← List.take_append_drop di l]
    rw [List.getElem_cons_drop _ _ h1]
  have hperm2 : (l[di] :: l.eraseIdx di).Perm l := by
    rw [List.eraseIdx_eq_take_drop_succ]
    conv_rhs => rw [hdecomp]
    exact (List.perm_middle).symm
  exact hperm1.trans hperm2

theorem inv_handleTabDrop (index : Nat) (w : Workspace) (hw : InvActive w)
    (hrange : ∀ di, w.dragIndex = some di →
      di < w.leftOpenTabs.length ∧ index < w.leftOpenTabs.length) :
    InvActive (handleTabDrop index w) := by
  obtain ⟨hl, hr⟩ := hw
  unfold handleTabDrop
  cases hdi : w.dragIndex with
  | none => exact ⟨hl, hr⟩
  | some di =>
    simp only []
    by_cases hix : index = di
    · rw [if_pos hix]
      exact ⟨hl, hr⟩
    · rw [if_neg hix]
      obtain ⟨h1, h2⟩ := hrange di hdi
      cases hget : w.leftOpenTabs[di]? with
      | none =>
        rw [List.getElem?_eq_none_iff] at hget
        omega
      | some moved =>
        simp only []
        obtain ⟨hlt, rfl⟩ := List.getElem?_eq_some_iff.mp hget
        refine ⟨?_, hr⟩
        have hperm := list_reinsert_perm w.leftOpenTabs di index h1 h2
        obtain ⟨t, ht, hid⟩ := mem_tabIds_iff.mp hl
        exact mem_tabIds_iff.mpr ⟨t, hperm.mem_iff.mpr ht, hid⟩

theorem mem_tabIds_append_self (l : List OpenTab) (tabId : SectionId) (title : String) :
    tabId ∈ tabIds (if l.any (fun t => t.id = tabId) then l
      else l ++ [{ id := tabId, title := title }]) := by
  by_cases hany : l.any (fun t => t.id = tabId)
  · rw [if_pos hany]
    obtain ⟨t, ht, hid⟩ := List.any_eq_true.mp hany
    exact mem_tabIds_iff.mpr ⟨t, ht, by simpa using hid⟩
  · rw [if_neg hany]
    exact mem_tabIds_iff.mpr ⟨{ id := tabId, title := title }, by simp, rfl⟩

theorem find?_ne_some_of_exists {l : List OpenTab} {tabId : SectionId}
    (hsrc : ∃ u ∈ l, u.id ≠ tabId) :
    ∃ v, l.find? (fun t => t.id ≠ tabId) = some v ∧
      v.id ∈ tabIds (l.filter (fun t => t.id ≠ tabId)) := by
  obtain ⟨u, hu, hne⟩ := hsrc
  have hsome : (l.find? (fun t => decide (t.id ≠ tabId))).isSome :=
    List.find?_isSome.mpr ⟨u, hu, by simpa using hne⟩
  cases hf : l.find? (fun t => decide (t.id ≠ tabId)) with
  | none =>
    rw [hf] at hsome
    cases hsome
  | some v =>
    refine ⟨v, rfl, ?_⟩
    have hvmem := List.mem_of_find?_eq_some hf
    have hvp := List.find?_some hf
    exact mem_tabIds_iff.mpr ⟨v, List.mem_filter.mpr ⟨hvmem, hvp⟩, rfl⟩

theorem inv_splitTab (tabId : SectionId) (direction fromGroup : TabGroup)
    (w : Workspace) (hw : InvActive w)
    (hsrc : ∃ u ∈ groupTabs fromGroup w, u.id ≠ tabId) :
    InvActive (splitTab tabId direction fromGroup w) := by
  obtain ⟨hl, hr⟩ := hw
  unfold splitTab
  rw [find?_SECTIONS]
  simp only []
  cases direction with
  | right =>
    cases fromGroup with
    | left =>
      rw [if_pos rfl]
      unfold InvActive
      simp only []
      constructor
      · by_cases hla : w.leftActiveTabId = tabId
        · rw [if_pos hla]
          have hsrcL : ∃ u ∈ w.leftOpenTabs, u.id ≠ tabId := hsrc
          obtain ⟨v, hv, hvmem⟩ := find?_ne_some_of_exists hsrcL
          rw [hv]
          simpa using hvmem
        · rw [if_neg hla]
          exact mem_tabIds_filter_of hl hla
      · exact Or.inr ⟨tabId, mem_tabIds_append_self _ _ _, rfl⟩
    | right =>
      have hne : TabGroup.right ≠ TabGroup.left := by decide
      rw [if_neg hne]
      exact ⟨hl, Or.inr ⟨tabId, mem_tabIds_append_self _ _ _, rfl⟩⟩
  | left =>
    cases fromGroup with
    | right =>
      rw [if_pos rfl]
      unfold InvActive
      simp only []
      refine ⟨mem_tabIds_append_self _ _ _, ?_⟩
      by_cases hra : w.rightActiveTabId = some tabId
      · rw [if_pos hra]
        have hsrcR : ∃ u ∈ w.rightOpenTabs, u.id ≠ tabId := hsrc
        obtain ⟨v, hv, hvmem⟩ := find?_ne_some_of_exists hsrcR
        rw [hv]
        exact Or.inr ⟨v.id, hvmem, rfl⟩
      · rw [if_neg hra]
        rcases hr with h0 | ⟨b, hb, heq⟩
        · exact Or.inl h0
        · refine Or.inr ⟨b, ?_, heq⟩
          have hbne : b ≠ tabId := by
            intro hcontra
            rw [hcontra] at heq
            exact hra heq
          exact mem_tabIds_filter_of hb hbne
    | left =>
      have hne : TabGroup.left ≠ TabGroup.right := by decide
      rw [if_neg hne]
      exact ⟨mem_tabIds_append_self _ _ _, hr⟩

/-! ## Claim theorems -/

/-- C1: for every group and tab list, when `close(tabId, group)` removes the
currently active tab (the list decomposes as `l1 ++ tb :: l2` with `tb` the
unique occurrence of the closed id), the new active id is the tab immediately
to the left of the removed tab in the remaining list `l1 ++ l2`; when there
is no left neighbor (`l1 = []`), the tab now occupying the removed tab's old
index; and when the list became empty, `none` for the right group and the
synthetic home tab for the left group. -/
theorem closeTab_active_close_rule (g : TabGroup) (w : Workspace) (tabId : SectionId)
    (l1 l2 : List OpenTab) (tb : OpenTab)
    (hdecomp : groupTabs g w = l1 ++ tb :: l2)
    (htb : tb.id = tabId)
    (hl1 : ∀ u ∈ l1, u.id ≠ tabId)
    (hl2 : ∀ u ∈ l2, u.id ≠ tabId)
    (hact : groupActive g w = some tabId) :
    (∀ u, l1 ≠ [] → (l1 ++ l2)[l1.length - 1]? = some u →
        groupActive g (closeTab tabId g w) = some u.id ∧
        groupTabs g (closeTab tabId g w) = l1 ++ l2) ∧
    (∀ u, l1 = [] → l2[0]? = some u →
        groupActive g (closeTab tabId g w) = some u.id ∧
        groupTabs g (closeTab tabId g w) = l2) ∧
    (l1 = [] → l2 = [] →
        (g = .left → groupActive g (closeTab tabId g w) = some .home ∧
            groupTabs g (closeTab tabId g w) = [homeTab]) ∧
        (g = .right → groupActive g (closeTab tabId g w) = none ∧
            groupTabs g (closeTab tabId g w) = [])) := by
  cases g with
  | left =>
    have hdecomp' : w.leftOpenTabs = l1 ++ tb :: l2 := hdecomp
    have hactId : w.leftActiveTabId = tabId := by
      have : some w.leftActiveTabId = some tabId := hact
      injection this
    refine ⟨?_, ?_, ?_⟩
    · intro u hne hu
      have hcore : closeTabCore true w.leftOpenTabs (some w.leftActiveTabId) tabId =
          (l1 ++ l2, some u.id) := by
        rw [hdecomp', hactId]
        exact closeTabCore_left_neighbor htb hl1 hl2 hne hu
      constructor
      · show some (Workspace.leftActiveTabId _) = some u.id
        unfold closeTab
        simp only [hcore]
        rfl
      · show Workspace.leftOpenTabs _ = l1 ++ l2
        unfold closeTab
        simp only [hcore]
    · intro u hl1nil hu
      subst hl1nil
      have hcore : closeTabCore true w.leftOpenTabs (some w.leftActiveTabId) tabId =
          (l2, some u.id) := by
        rw [hdecomp', hactId]
        exact closeTabCore_same_index htb hl2 hu
      constructor
      · show some (Workspace.leftActiveTabId _) = some u.id
        unfold closeTab
        simp only [hcore]
        rfl
      · show Workspace.leftOpenTabs _ = l2
        unfold closeTab
        simp only [hcore]
    · intro hl1nil hl2nil
      subst hl1nil
      subst hl2nil
      have hcore : closeTabCore true w.leftOpenTabs (some w.leftActiveTabId) tabId =
          ([homeTab], some .home) := by
        rw [hdecomp', hactId]
        simpa using @closeTabCore_emptied true tb tabId htb
      refine ⟨fun _ => ?_, fun hcontra => by cases hcontra⟩
      constructor
      · show some (Workspace.leftActiveTabId _) = some SectionId.home
        unfold closeTab
        simp only [hcore]
        rfl
      · show Workspace.leftOpenTabs _ = [homeTab]
        unfold closeTab
        simp only [hcore]
  | right =>
    have hdecomp' : w.rightOpenTabs = l1 ++ tb :: l2 := hdecomp
    have hact' : w.rightActiveTabId = some tabId := hact
    refine ⟨?_, ?_, ?_⟩
    · intro u hne hu
      have hcore : closeTabCore false w.rightOpenTabs w.rightActiveTabId tabId =
          (l1 ++ l2, some u.id) := by
        rw [hdecomp', hact']
        exact closeTabCore_left_neighbor htb hl1 hl2 hne hu
      constructor
      · show Workspace.rightActiveTabId _ = some u.id
        unfold closeTab
        simp only [hcore]
      · show Workspace.rightOpenTabs _ = l1 ++ l2
        unfold closeTab
        simp only [hcore]
    · intro u hl1nil hu
      subst hl1nil
      have hcore : closeTabCore false w.rightOpenTabs w.rightActiveTabId tabId =
          (l2, some u.id) := by
        rw [hdecomp', hact']
        exact closeTabCore_same_index htb hl2 hu
      constructor
      · show Workspace.rightActiveTabId _ = some u.id
        unfold closeTab
        simp only [hcore]
      · show Workspace.rightOpenTabs _ = l2
        unfold closeTab
        simp only [hcore]
    · intro hl1nil hl2nil
      subst hl1nil
      subst hl2nil
      have hcore : closeTabCore false w.rightOpenTabs w.rightActiveTabId tabId =
          ([], none) := by
        rw [hdecomp', hact']
        simpa using @closeTabCore_emptied false tb tabId htb
      refine ⟨fun hcontra => (nomatch hcontra), fun _ => ?_⟩
      constructor
      · show Workspace.rightActiveTabId _ = none
        unfold closeTab
        simp only [hcore]
      · show Workspace.rightOpenTabs _ = []
        unfold closeTab
        simp only [hcore]

/-- C1 witness: the spec scenario left `[home, about, skills]` with `skills`
active; closing `skills` makes `about` (the left neighbor) active. -/
theorem closeTab_active_close_rule_witness :
    groupActive .left (closeTab .skills .left wDemo) = some .about ∧
    groupTabs .left (closeTab .skills .left wDemo) = [homeTab, aboutTab] := by
  have h := closeTab_active_close_rule .left wDemo .skills [homeTab, aboutTab] []
    skillsTab (by decide) (by decide) (by decide) (by decide) (by decide)
  have h1 := h.1 aboutTab (by decide) (by decide)
  exact ⟨h1.1, by simpa using h1.2⟩

/-- C2 counterexample: the claim quantifies over every exposed operation,
including `closeOthers`; from the invariant-satisfying initial state,
`closeOthers('about')` (dispatched in the UI from a right-group tab's context
menu, which always targets the left list) empties the left list while setting
its active id to `about`, so the invariant is broken. -/
theorem closeOthers_breaks_active_invariant :
    InvActive wsInit ∧ ¬ InvActive (closeOthers SectionId.about wsInit) := by
  decide

/-- C2 amended: the active-id invariant is preserved by `open`, `setActive`
on a present tab, `close` (both groups, any id), `closeOthers`/`closeToRight`
when the tab is present in the left group, `closeAll`, in-range drag-reorder
drops, and `moveToGroup` when the source group holds a tab with a different
id (the UI's two-tab guard on the split actions). -/
theorem activeInvariant_preserved (w : Workspace) (hw : InvActive w) :
    (∀ sec g, InvActive (openSection sec g w)) ∧
    (∀ g tabId, tabId ∈ tabIds (groupTabs g w) → InvActive (setActiveTab g tabId w)) ∧
    (∀ tabId g, InvActive (closeTab tabId g w)) ∧
    (∀ tabId, tabId ∈ tabIds w.leftOpenTabs → InvActive (closeOthers tabId w)) ∧
    (∀ tabId, tabId ∈ tabIds w.leftOpenTabs → InvActive (closeToRight tabId w)) ∧
    InvActive (closeAllTabs w) ∧
    (∀ index, (∀ di, w.dragIndex = some di →
        di < w.leftOpenTabs.length ∧ index < w.leftOpenTabs.length) →
      InvActive (handleTabDrop index w)) ∧
    (∀ tabId direction fromGroup, (∃ u ∈ groupTabs fromGroup w, u.id ≠ tabId) →
      InvActive (splitTab tabId direction fromGroup w)) := by
  refine ⟨fun sec g => inv_openSection sec g w hw,
    fun g tabId h => inv_setActiveTab g tabId w hw h,
    fun tabId g => inv_closeTab tabId g w hw,
    fun tabId h => inv_closeOthers tabId w hw h,
    fun tabId h => inv_closeToRight tabId w hw h,
    inv_closeAllTabs w,
    fun index h => inv_handleTabDrop index w hw h,
    fun tabId direction fromGroup h => inv_splitTab tabId direction fromGroup w hw h⟩

/-- C2 witness: from the initial state, closing `home` (the active tab of the
singleton left list) keeps the invariant. -/
theorem activeInvariant_preserved_witness :
    InvActive (closeTab SectionId.home TabGroup.left wsInit) :=
  (activeInvariant_preserved wsInit (by decide)).2.2.1 SectionId.home TabGroup.left

theorem inv_runLeftOps (ops : List LeftOp) (w : Workspace) (hw : InvActive w) :
    InvActive (runLeftOps ops w) := by
  induction ops generalizing w with
  | nil => exact hw
  | cons op rest ih =>
    cases op with
    | openTab sec => exact ih _ (inv_openSection sec .left w hw)
    | close tabId => exact ih _ (inv_closeTab tabId .left w hw)

/-- C3: for every finite sequence of left-group `open`/`close` operations
starting from the initial `[home]` state, the left list is never empty, and
closing the one remaining tab of a singleton list resets the list to exactly
the synthetic home tab with `home` active. -/
theorem leftGroup_never_empty (ops : List LeftOp) :
    (runLeftOps ops wsInit).leftOpenTabs ≠ [] ∧
    ∀ t, (runLeftOps ops wsInit).leftOpenTabs = [t] →
      (closeTab t.id .left (runLeftOps ops wsInit)).leftOpenTabs = [homeTab] ∧
      (closeTab t.id .left (runLeftOps ops wsInit)).leftActiveTabId = .home := by
  obtain ⟨hl, -⟩ := inv_runLeftOps ops wsInit (by decide)
  constructor
  · intro hcontra
    rw [hcontra] at hl
    simp [tabIds] at hl
  · intro t ht
    have hact : (runLeftOps ops wsInit).leftActiveTabId = t.id := by
      rw [ht] at hl
      simpa [tabIds] using hl
    have hcore : closeTabCore true (runLeftOps ops wsInit).leftOpenTabs
        (some (runLeftOps ops wsInit).leftActiveTabId) t.id = ([homeTab], some .home) := by
      rw [ht, hact]
      simpa using @closeTabCore_emptied true t t.id rfl
    constructor
    · show Workspace.leftOpenTabs _ = [homeTab]
      unfold closeTab
      simp only [hcore]
    · show Workspace.leftActiveTabId _ = SectionId.home
      unfold closeTab
      simp only [hcore]
      rfl

/-- C3 witness: after `open(about)` then `close(home)` the left list is the
singleton `[about]`; closing `about` resets the group to `[home]` with `home`
active. -/
theorem leftGroup_never_empty_witness :
    (runLeftOps [LeftOp.openTab (sectionOf .about), LeftOp.close .home] wsInit).leftOpenTabs ≠ [] ∧
    (closeTab SectionId.about TabGroup.left
      (runLeftOps [LeftOp.openTab (sectionOf .about), LeftOp.close .home] wsInit)).leftOpenTabs =
        [homeTab] ∧
    (closeTab SectionId.about TabGroup.left
      (runLeftOps [LeftOp.openTab (sectionOf .about), LeftOp.close .home] wsInit)).leftActiveTabId =
        SectionId.home := by
  have h := leftGroup_never_empty [LeftOp.openTab (sectionOf .about), LeftOp.close .home]
  have h2 := h.2 aboutTab (by decide)
  exact ⟨h.1, h2.1, h2.2⟩

/-- C4 counterexample: from left `[home, about, skills]` with `skills`
active, `moveToGroup(skills, right, left)` sets the left group's active tab
to `home` — the first remaining tab — not to the left neighbor `about` that
the claim's close-rule would select; and moving the sole tab `about` out of a
singleton left group leaves the left list empty instead of resetting it to
the home tab. -/
theorem splitTab_breaks_close_rule_and_floor :
    (splitTab SectionId.skills TabGroup.right TabGroup.left wDemo).leftActiveTabId =
      SectionId.home ∧
    SectionId.home ≠ SectionId.about ∧
    (splitTab SectionId.about TabGroup.right TabGroup.left
      { wsInit with leftOpenTabs := [aboutTab], leftActiveTabId := .about }).leftOpenTabs =
        [] := by
  decide

theorem appendTab_eq_of_mem {l : List OpenTab} {tabId : SectionId} (title : String)
    (h : tabId ∈ tabIds l) :
    (if l.any (fun t => t.id = tabId) then l else l ++ [{ id := tabId, title := title }]) = l := by
  obtain ⟨t, ht, hid⟩ := mem_tabIds_iff.mp h
  rw [if_pos (List.any_eq_true.mpr ⟨t, ht, by simpa using hid⟩)]

theorem appendTab_eq_of_not_mem {l : List OpenTab} {tabId : SectionId} (title : String)
    (h : tabId ∉ tabIds l) :
    (if l.any (fun t => t.id = tabId) then l else l ++ [{ id := tabId, title := title }]) =
      l ++ [{ id := tabId, title := title }] := by
  rw [if_neg]
  intro hany
  obtain ⟨t, ht, hid⟩ := List.any_eq_true.mp hany
  exact h (mem_tabIds_iff.mpr ⟨t, ht, by simpa using hid⟩)

theorem appendTab_nodup {l : List OpenTab} {tabId : SectionId} {title : String}
    (h : (tabIds l).Nodup) :
    (tabIds (if l.any (fun t => t.id = tabId) then l
      else l ++ [{ id := tabId, title := title }])).Nodup := by
  by_cases hmem : tabId ∈ tabIds l
  · rw [appendTab_eq_of_mem title hmem]
    exact h
  · rw [appendTab_eq_of_not_mem title hmem]
    simp only [tabIds, List.map_append, List.map_cons, List.map_nil]
    rw [List.nodup_append]
    refine ⟨h, List.nodup_singleton _, ?_⟩
    intro a ha hb
    simp only [List.mem_singleton] at hb
    subst hb
    exact hmem ha

theorem splitTab_right_left_eq (w : Workspace) (tabId : SectionId) :
    splitTab tabId .right .left w =
      { w with
        rightOpenTabs := if w.rightOpenTabs.any (fun t => t.id = tabId) then w.rightOpenTabs
          else w.rightOpenTabs ++ [{ id := tabId, title := (sectionOf tabId).title }]
        rightActiveTabId := some tabId
        leftOpenTabs := w.leftOpenTabs.filter (fun t => t.id ≠ tabId)
        leftActiveTabId := if w.leftActiveTabId = tabId then
            ((w.leftOpenTabs.find? (fun t => t.id ≠ tabId)).map (fun t => t.id)).getD .home
          else w.leftActiveTabId } := by
  unfold splitTab
  rw [find?_SECTIONS]
  rfl

theorem splitTab_left_right_eq (w : Workspace) (tabId : SectionId) :
    splitTab tabId .left .right w =
      { w with
        leftOpenTabs := if w.leftOpenTabs.any (fun t => t.id = tabId) then w.leftOpenTabs
          else w.leftOpenTabs ++ [{ id := tabId, title := (sectionOf tabId).title }]
        leftActiveTabId := tabId
        rightOpenTabs := w.rightOpenTabs.filter (fun t => t.id ≠ tabId)
        rightActiveTabId := if w.rightActiveTabId = some tabId then
            (w.rightOpenTabs.find? (fun t => t.id ≠ tabId)).map (fun t => t.id)
          else w.rightActiveTabId } := by
  unfold splitTab
  rw [find?_SECTIONS]
  rfl

/-- C4 amended: `moveToGroup` appends the tab to the destination iff it is
not already present (so the destination stays duplicate-free) and makes it
active there; it filters the tab out of the source list; if it was the source
group's active tab the new active tab is the FIRST remaining tab of the
source list (not the left neighbor), falling back to `home` (left source) or
`none` (right source) when nothing remains; moving the last tab out of the
left group leaves the left list empty with active set to `home` (no home-tab
reset; unreachable in the UI, whose split actions require two tabs). -/
theorem splitTab_moveToGroup_behavior (w : Workspace) (tabId : SectionId) :
    ((tabId ∈ tabIds w.rightOpenTabs →
        (splitTab tabId .right .left w).rightOpenTabs = w.rightOpenTabs) ∧
     (tabId ∉ tabIds w.rightOpenTabs →
        (splitTab tabId .right .left w).rightOpenTabs =
          w.rightOpenTabs ++ [{ id := tabId, title := (sectionOf tabId).title }]) ∧
     (splitTab tabId .right .left w).rightActiveTabId = some tabId ∧
     tabId ∈ tabIds (splitTab tabId .right .left w).rightOpenTabs ∧
     ((tabIds w.rightOpenTabs).Nodup →
        (tabIds (splitTab tabId .right .left w).rightOpenTabs).Nodup)) ∧
    ((splitTab tabId .right .left w).leftOpenTabs =
        w.leftOpenTabs.filter (fun t => t.id ≠ tabId) ∧
     (w.leftActiveTabId ≠ tabId →
        (splitTab tabId .right .left w).leftActiveTabId = w.leftActiveTabId) ∧
     (w.leftActiveTabId = tabId →
        ∀ u, ((splitTab tabId .right .left w).leftOpenTabs).head? = some u →
          (splitTab tabId .right .left w).leftActiveTabId = u.id) ∧
     (w.leftActiveTabId = tabId → (splitTab tabId .right .left w).leftOpenTabs = [] →
        (splitTab tabId .right .left w).leftActiveTabId = .home)) ∧
    ((tabId ∈ tabIds w.leftOpenTabs →
        (splitTab tabId .left .right w).leftOpenTabs = w.leftOpenTabs) ∧
     (tabId ∉ tabIds w.leftOpenTabs →
        (splitTab tabId .left .right w).leftOpenTabs =
          w.leftOpenTabs ++ [{ id := tabId, title := (sectionOf tabId).title }]) ∧
     (splitTab tabId .left .right w).leftActiveTabId = tabId ∧
     tabId ∈ tabIds (splitTab tabId .left .right w).leftOpenTabs ∧
     ((tabIds w.leftOpenTabs).Nodup →
        (tabIds (splitTab tabId .left .right w).leftOpenTabs).Nodup)) ∧
    ((splitTab tabId .left .right w).rightOpenTabs =
        w.rightOpenTabs.filter (fun t => t.id ≠ tabId) ∧
     (w.rightActiveTabId ≠ some tabId →
        (splitTab tabId .left .right w).rightActiveTabId = w.rightActiveTabId) ∧
     (w.rightActiveTabId = some tabId →
        ∀ u, ((splitTab tabId .left .right w).rightOpenTabs).head? = some u →
          (splitTab tabId .left .right w).rightActiveTabId = some u.id) ∧
     (w.rightActiveTabId = some tabId → (splitTab tabId .left .right w).rightOpenTabs = [] →
        (splitTab tabId .left .right w).rightActiveTabId = none)) := by
  rw [splitTab_right_left_eq, splitTab_left_right_eq]
  simp only []
  refine ⟨⟨?_, ?_, trivial, ?_, ?_⟩, ⟨trivial, ?_, ?_, ?_⟩, ⟨?_, ?_, trivial, ?_, ?_⟩,
    ⟨trivial, ?_, ?_, ?_⟩⟩
  · exact fun h => appendTab_eq_of_mem _ h
  · exact fun h => appendTab_eq_of_not_mem _ h
  · exact mem_tabIds_append_self _ _ _
  · exact fun h => appendTab_nodup h
  · intro hne
    rw [if_neg hne]
  · intro heq u hu
    rw [if_pos heq]
    rw [find?_eq_head_filter, hu]
    rfl
  · intro heq hnil
    rw [if_pos heq, find?_eq_head_filter, hnil]
    rfl
  · exact fun h => appendTab_eq_of_mem _ h
  · exact fun h => appendTab_eq_of_not_mem _ h
  · exact mem_tabIds_append_self _ _ _
  · exact fun h => appendTab_nodup h
  · intro hne
    rw [if_neg hne]
  · intro heq u hu
    rw [if_pos heq]
    rw [find?_eq_head_filter, hu]
    rfl
  · intro heq hnil
    rw [if_pos heq, find?_eq_head_filter, hnil]
    rfl

/-- C4 witness: the concrete scenario — moving `skills` to the right from
left `[home, about, skills]` (active `skills`): the destination gets
`skills` appended and active, the source list is filtered, and the new left
active tab is `home`, the first remaining tab. -/
theorem splitTab_moveToGroup_behavior_witness :
    (splitTab SectionId.skills TabGroup.right TabGroup.left wDemo).rightOpenTabs =
      [{ id := .skills, title := "Skills" }] ∧
    (splitTab SectionId.skills TabGroup.right TabGroup.left wDemo).rightActiveTabId =
      some SectionId.skills ∧
    (splitTab SectionId.skills TabGroup.right TabGroup.left wDemo).leftOpenTabs =
      [homeTab, aboutTab] ∧
    (splitTab SectionId.skills TabGroup.right TabGroup.left wDemo).leftActiveTabId =
      SectionId.home := by
  have h := splitTab_moveToGroup_behavior wDemo SectionId.skills
  refine ⟨?_, h.1.2.2.1, ?_, ?_⟩
  · have := h.1.2.1 (by decide)
    simpa using this
  · have := h.2.1.1
    simpa using this
  · have := h.2.1.2.2.1 (by decide) homeTab (by decide)
    simpa using this

/-- C5: with an in-range drag source `s` (recorded in `dragIndex`) and drop
target `t`, the drop produces a permutation of the left list (also as a
multiset of ids); it is a no-op when `s = t`; otherwise exactly the dragged
element is relocated to index `t - 1` when `s < t`, else to index `t`, and
removing it from the result gives the original list with the dragged element
removed, so all other tabs retain their relative order. -/
theorem handleTabDrop_reorder_perm (w : Workspace) (s t : Nat)
    (hdi : w.dragIndex = some s)
    (h1 : s < w.leftOpenTabs.length) (h2 : t < w.leftOpenTabs.length) :
    ((handleTabDrop t w).leftOpenTabs).Perm w.leftOpenTabs ∧
    (tabIds (handleTabDrop t w).leftOpenTabs).Perm (tabIds w.leftOpenTabs) ∧
    (s = t → (handleTabDrop t w).leftOpenTabs = w.leftOpenTabs) ∧
    (s ≠ t →
      ((handleTabDrop t w).leftOpenTabs)[if s < t then t - 1 else t]? =
        w.leftOpenTabs[s]? ∧
      ((handleTabDrop t w).leftOpenTabs).eraseIdx (if s < t then t - 1 else t) =
        w.leftOpenTabs.eraseIdx s) := by
  unfold handleTabDrop
  rw [hdi]
  simp only []
  by_cases hts : t = s
  · rw [if_pos hts]
    refine ⟨List.Perm.refl _, List.Perm.refl _, fun _ => rfl, fun hne => ?_⟩
    exact absurd hts.symm hne
  · rw [if_neg hts]
    have hget : w.leftOpenTabs[s]? = some (w.leftOpenTabs[s]) :=
      List.getElem?_eq_getElem h1
    simp only [hget]
    have hil : (if s < t then t - 1 else t) ≤ (w.leftOpenTabs.eraseIdx s).length := by
      rw [List.length_eraseIdx_of_lt h1]
      by_cases hc : s < t
      · rw [if_pos hc]
        omega
      · rw [if_neg hc]
        omega
    have hperm := list_reinsert_perm w.leftOpenTabs s t h1 h2
    refine ⟨hperm, hperm.map _, fun hst => absurd hst.symm hts, fun _ => ⟨?_, ?_⟩⟩
    · have hlen : (if s < t then t - 1 else t) <
          ((w.leftOpenTabs.eraseIdx s).insertIdx (if s < t then t - 1 else t)
            (w.leftOpenTabs[s])).length := by
        rw [List.length_insertIdx _ _ hil]
        omega
      rw [List.getElem?_eq_getElem hlen]
      rw [List.getElem_insertIdx_self _ _ _ hil]
    · exact List.eraseIdx_insertIdx _ _

/-- C5 witness: dragging index 0 of `[home, about, skills]` onto index 2
gives a permutation with the dragged tab at index 1 and the others in their
original relative order. -/
theorem handleTabDrop_reorder_perm_witness :
    ((handleTabDrop 2 { wDemo with dragIndex := some 0 }).leftOpenTabs).Perm
      [homeTab, aboutTab, skillsTab] ∧
    ((handleTabDrop 2 { wDemo with dragIndex := some 0 }).leftOpenTabs)[1]? =
      [homeTab, aboutTab, skillsTab][0]? ∧
    ((handleTabDrop 2 { wDemo with dragIndex := some 0 }).leftOpenTabs).eraseIdx 1 =
      [homeTab, aboutTab, skillsTab].eraseIdx 0 := by
  have h := handleTabDrop_reorder_perm { wDemo with dragIndex := some 0 } 0 2 rfl
    (by decide) (by decide)
  have h4 := h.2.2.2 (by decide)
  exact ⟨h.1, h4.1, h4.2⟩

/-- C6 counterexample: `closeToRight` of a tab absent from the left group is
not a silent no-op: the tab lists are unchanged but the left group's active
id is unconditionally set to the absent tab. -/
theorem closeToRight_absent_not_noop :
    closeToRight SectionId.about wsInit ≠ wsInit ∧
    (closeToRight SectionId.about wsInit).leftOpenTabs = wsInit.leftOpenTabs ∧
    (closeToRight SectionId.about wsInit).leftActiveTabId = SectionId.about := by
  decide

/-- C6 amended: closing a tab absent from the group leaves the entire
workspace unchanged and raises nothing; `closeToRight` of an absent tab
leaves both groups' tab lists (and the split ratio) unchanged but still sets
the left group's active id to the absent tab; tab activation is only ever
dispatched for tabs present in the group. -/
theorem invalidRequests_behavior (w : Workspace) (tabId : SectionId) :
    (∀ g, tabId ∉ tabIds (groupTabs g w) → closeTab tabId g w = w) ∧
    (tabId ∉ tabIds w.leftOpenTabs →
      (closeToRight tabId w).leftOpenTabs = w.leftOpenTabs ∧
      (closeToRight tabId w).rightOpenTabs = w.rightOpenTabs ∧
      (closeToRight tabId w).rightActiveTabId = w.rightActiveTabId ∧
      (closeToRight tabId w).splitRatio = w.splitRatio ∧
      (closeToRight tabId w).leftActiveTabId = tabId) := by
  constructor
  · intro g habs
    cases g with
    | left =>
      have habs' : tabId ∉ tabIds w.leftOpenTabs := habs
      unfold closeTab
      simp only [closeTabCore_absent habs']
      rfl
    | right =>
      have habs' : tabId ∉ tabIds w.rightOpenTabs := habs
      unfold closeTab
      simp only [closeTabCore_absent habs']
  · intro habs
    unfold closeToRight
    rw [findIdx?_of_not_mem habs]
    exact ⟨rfl, rfl, rfl, rfl, rfl⟩

/-- C6 witness: closing or truncating after the absent `skills` tab in the
initial state. -/
theorem invalidRequests_behavior_witness :
    closeTab SectionId.skills TabGroup.left wsInit = wsInit ∧
    closeTab SectionId.skills TabGroup.right wsInit = wsInit ∧
    (closeToRight SectionId.skills wsInit).leftOpenTabs = wsInit.leftOpenTabs ∧
    (closeToRight SectionId.skills wsInit).leftActiveTabId = SectionId.skills := by
  have h := invalidRequests_behavior wsInit SectionId.skills
  have h2 := h.2 (by decide)
  exact ⟨h.1 TabGroup.left (by decide), h.1 TabGroup.right (by decide), h2.1, h2.2.2.2.2⟩

/-- C7: when both the primary and the fallback fetch fail (network error or
non-success response), the settled record is the unavailable sentinel
(`null`, loading cleared), and rendering the `home` section then yields the
built-in static block starting `# Lalit Sharma` / `Software Engineer`, not
the loading placeholder. -/
theorem contentFallback_static (p f : FetchOutcome)
    (hp : ∀ d, p ≠ FetchOutcome.ok d) (hf : ∀ d, f ≠ FetchOutcome.ok d) :
    load p f = (none, false) ∧
    renderEditorContent .home (load p f).1 (load p f).2 = staticSectionLines .home ∧
    (renderEditorContent .home (load p f).1 (load p f).2).take 2 =
      ["# Lalit Sharma", "Software Engineer"] ∧
    renderEditorContent .home (load p f).1 (load p f).2 ≠ loadingLines := by
  have hload : load p f = (none, false) := by
    cases p with
    | ok d => exact absurd rfl (hp d)
    | httpError =>
      cases f with
      | ok d => exact absurd rfl (hf d)
      | httpError => rfl
      | networkError => rfl
    | networkError =>
      cases f with
      | ok d => exact absurd rfl (hf d)
      | httpError => rfl
      | networkError => rfl
  rw [hload]
  exact ⟨rfl, rfl, rfl, by decide⟩

/-- C7 witness: a non-success primary response followed by a fallback network
error. -/
theorem contentFallback_static_witness :
    load FetchOutcome.httpError FetchOutcome.networkError = (none, false) ∧
    (renderEditorContent .home
        (load FetchOutcome.httpError FetchOutcome.networkError).1
        (load FetchOutcome.httpError FetchOutcome.networkError).2).take 2 =
      ["# Lalit Sharma", "Software Engineer"] := by
  have h := contentFallback_static FetchOutcome.httpError FetchOutcome.networkError
    (fun d hcontra => (nomatch hcontra)) (fun d hcontra => (nomatch hcontra))
  exact ⟨h.1, h.2.2.1⟩

/-- C8: the splitter-drag handler computes exactly the spec's formula — the
pointer-derived x position clamped so each pane keeps at least 100 px, then
divided by the container width, then clamped to `[0.2, 0.8]`; in particular a
pointer position putting the left pane at 50 px on a 1000 px container is
clamped to the 100 px floor (ratio `0.1`), which the hard floor further
clamps to `0.2`. -/
theorem onMove_splitRatio_clamp :
    (∀ clientX rectLeft rectWidth offset,
       onMove clientX rectLeft rectWidth offset =
         specSplitRatio clientX rectLeft (offset.getD 0) rectWidth) ∧
    min (max (50 : ℚ) 100) (1000 - 100) = 100 ∧
    (100 : ℚ) / 1000 = 1 / 10 ∧
    min (max ((1 : ℚ) / 10) 0.2) 0.8 = 0.2 ∧
    onMove 50 0 1000 none = 0.2 := by
  refine ⟨fun a b c o => rfl, by norm_num, by norm_num, ?_, ?_⟩
  · norm_num [max_def, min_def]
  · simp only [onMove]
    norm_num [max_def, min_def]

/-- C9: `filter` returns the full 8-section catalog in registration order for
an empty or whitespace-only query, otherwise exactly the sections whose title
or display path contains the query as a case-insensitive substring, in
registration order; a query matching nothing yields the empty list, on which
`commitFirst` opens no tab and leaves the state unchanged. -/
theorem filteredSections_search_spec :
    SECTIONS.length = 8 ∧
    SECTIONS.map (fun s => s.id) =
      [.home, .about, .experience, .projects, .skills, .education, .training, .contact] ∧
    (∀ q : String, jsTrim q = "" → filteredSections q = SECTIONS) ∧
    (∀ q : String, jsTrim q ≠ "" →
      filteredSections q = SECTIONS.filter (matchesQuery q)) ∧
    filteredSections "" = SECTIONS ∧
    filteredSections "   " = SECTIONS ∧
    filteredSections "xyz-no-match" = [] ∧
    (∀ q w, filteredSections q = [] → commitFirst q w = w) := by
  refine ⟨by decide, by decide, ?_, ?_, by decide, by decide, by decide, ?_⟩
  · intro q h
    unfold filteredSections
    rw [if_pos h]
  · intro q h
    unfold filteredSections
    rw [if_neg h]
    rfl
  · intro q w h
    unfold commitFirst
    rw [h]
    rfl

/-- C9 witness: "HOME" matches by case-insensitive substring; the no-match
query leaves the initial state unchanged. -/
theorem filteredSections_search_spec_witness :
    filteredSections "HOME" = SECTIONS.filter (matchesQuery "HOME") ∧
    commitFirst "xyz-no-match" wsInit = wsInit := by
  have h := filteredSections_search_spec
  exact ⟨h.2.2.2.1 "HOME" (by decide),
    h.2.2.2.2.2.2.2 "xyz-no-match" wsInit (by decide)⟩

/-- C10: a drop on the left tab bar changes only the left group's tab
ordering and the transient drag indices: the left active id, the right
group's list and active id, the split ratio and the query are unchanged for
every state and index, and with an in-range recorded drag the left list is
merely permuted. -/
theorem handleTabDrop_frame (w : Workspace) (index : Nat) :
    (handleTabDrop index w).leftActiveTabId = w.leftActiveTabId ∧
    (handleTabDrop index w).rightOpenTabs = w.rightOpenTabs ∧
    (handleTabDrop index w).rightActiveTabId = w.rightActiveTabId ∧
    (handleTabDrop index w).splitRatio = w.splitRatio ∧
    (handleTabDrop index w).query = w.query ∧
    (∀ di, w.dragIndex = some di → di < w.leftOpenTabs.length →
      index < w.leftOpenTabs.length →
      ((handleTabDrop index w).leftOpenTabs).Perm w.leftOpenTabs) := by
  unfold handleTabDrop
  cases hdi : w.dragIndex with
  | none => exact ⟨rfl, rfl, rfl, rfl, rfl, fun di h => (nomatch h)⟩
  | some di =>
    simp only []
    by_cases hix : index = di
    · rw [if_pos hix]
      refine ⟨rfl, rfl, rfl, rfl, rfl, fun di' hdi' _ _ => List.Perm.refl _⟩
    · rw [if_neg hix]
      cases hget : w.leftOpenTabs[di]? with
      | none =>
        simp only []
        exact ⟨trivial, trivial, trivial, trivial, trivial,
          fun di' hdi' hlt _ => List.Perm.refl _⟩
      | some moved =>
        simp only []
        refine ⟨trivial, trivial, trivial, trivial, trivial, fun di' hdi' hlt hlt2 => ?_⟩
        injection hdi' with hdi'
        subst hdi'
        obtain ⟨hb, rfl⟩ := List.getElem?_eq_some_iff.mp hget
        exact list_reinsert_perm w.leftOpenTabs di index hb hlt2

/-- C10 witness: the drop of dragged index 0 on index 2 in the demo state
keeps the left active id, the right group, the split ratio and the query, and
permutes the left list. -/
theorem handleTabDrop_frame_witness :
    (handleTabDrop 2 { wDemo with dragIndex := some 0 }).leftActiveTabId =
      { wDemo with dragIndex := some 0 }.leftActiveTabId ∧
    (handleTabDrop 2 { wDemo with dragIndex := some 0 }).rightOpenTabs =
      { wDemo with dragIndex := some 0 }.rightOpenTabs ∧
    (handleTabDrop 2 { wDemo with dragIndex := some 0 }).splitRatio =
      { wDemo with dragIndex := some 0 }.splitRatio ∧
    ((handleTabDrop 2 { wDemo with dragIndex := some 0 }).leftOpenTabs).Perm
      { wDemo with dragIndex := some 0 }.leftOpenTabs := by
  have h := handleTabDrop_frame { wDemo with dragIndex := some 0 } 2
  exact ⟨h.1, h.2.1, h.2.2.2.1, h.2.2.2.2.2 0 rfl (by decide) (by decide)⟩
